import Mathlib

/-!
Shallow embedding of the opengl-playground repository (Speykious/opengl-playground)
for checking its natural-language specification.

Source files embedded:
- `src/camera.rs` (`Camera`, `pointer_to_pos`, `matrix`)
- `src/scene.rs` (`SceneController`)
- `src/scenes/round_quads.rs` (quad grid, partial vertex upload)
- `src/scenes/kawase.rs` and `src/scenes/blurring.rs` (blur pass sequencing,
  key-driven parameter mutation)

Floating-point (`f32`) arithmetic is idealised as real (`ℝ`) or rational (`ℚ`)
arithmetic, except where a claim is specifically about `f32` edge values
(NaN / infinities), which are modelled by the `F32` type below.
-/

/-! ## Grid index mapping (`src/scenes/round_quads.rs`, `Quad::pos_from_idx`) -/

/-- Row-major index to grid coordinate, from `Quad::pos_from_idx`:
`(i % area_width, i / area_width)`. -/
def gridCoordFromIndex (i areaWidth : ℕ) : ℕ × ℕ :=
  (i % areaWidth, i / areaWidth)

/-- Grid coordinate to row-major index, as used in `RoundQuadsScene::draw`:
`y * area_width + x`. -/
def indexFromGridCoord (x y areaWidth : ℕ) : ℕ :=
  y * areaWidth + x

/-! ## An `f32` value model distinguishing non-finite values

Used for the claims about `Quad::closest_grid_idx_from_pos`, which must
stay in range even for non-finite inputs. Finite values are idealised as
rationals (exact `f32` rounding of finite intermediates is not modelled;
it does not affect range clamping). -/

inductive F32 where
  | fin (q : ℚ)
  | nan
  | inf
  | ninf
deriving DecidableEq

/-- Round half away from zero, the semantics of Rust `f32::round`. -/
def roundAway (q : ℚ) : ℤ :=
  if 0 ≤ q then ⌊q + 1/2⌋ else -⌊-q + 1/2⌋

/-- Division by a positive finite constant (`pos / 16.0`). -/
def F32.divC (v : F32) (c : ℚ) : F32 :=
  match v with
  | .fin q => .fin (q / c)
  | .nan => .nan
  | .inf => .inf
  | .ninf => .ninf

/-- Addition of a finite constant (`+ width * 0.5`). -/
def F32.addC (v : F32) (c : ℚ) : F32 :=
  match v with
  | .fin q => .fin (q + c)
  | .nan => .nan
  | .inf => .inf
  | .ninf => .ninf

/-- Rust `f32::round`: NaN and infinities are preserved. -/
def F32.round (v : F32) : F32 :=
  match v with
  | .fin q => .fin (roundAway q)
  | .nan => .nan
  | .inf => .inf
  | .ninf => .ninf

/-- Rust `f32::clamp(lo, hi)` (requires `lo ≤ hi`): NaN propagates,
`+∞` clamps to `hi`, `-∞` clamps to `lo`. -/
def F32.clamp (v : F32) (lo hi : ℚ) : F32 :=
  match v with
  | .fin q => .fin (min (max q lo) hi)
  | .nan => .nan
  | .inf => .fin hi
  | .ninf => .fin lo

/-- Rust `as u32` cast from `f32`: saturating; NaN casts to 0. -/
def F32.toU32 (v : F32) : ℕ :=
  match v with
  | .fin q => if 0 ≤ q then min ⌊q⌋.toNat (2 ^ 32 - 1) else 0
  | .nan => 0
  | .inf => 2 ^ 32 - 1
  | .ninf => 0

/-- `Quad::closest_grid_idx_from_pos` on the `F32` model:
```text
let width = area_width as f32;
let upper_limit = width - 1.0;
let pos = pos / 16.0 + width * 0.5;
(pos.x.round().clamp(0.0, upper_limit) as u32,
 pos.y.round().clamp(0.0, upper_limit) as u32)
``` -/
def closestGridIdxF32 (pos : F32 × F32) (areaWidth : ℕ) : ℕ × ℕ :=
  let width : ℚ := areaWidth
  let upperLimit : ℚ := width - 1
  ((((pos.1.divC 16).addC (width * (1/2))).round.clamp 0 upperLimit).toU32,
   (((pos.2.divC 16).addC (width * (1/2))).round.clamp 0 upperLimit).toU32)

/-! ## Blur compositors (`src/scenes/kawase.rs`, `src/scenes/blurring.rs`)

Both scenes share `const RESDIVS: &[u32] = &[2, 4, 8, 16, 32, 64]` and build
one render target (pair, for the ping-pong variant) per divisor. The per-frame
pass sequence of `draw_with_clear_color` is modelled as a list of passes, each
tagged with the chain index `fbi` of the target it writes. -/

def RESDIVS : List ℕ := [2, 4, 8, 16, 32, 64]

inductive BlurPass where
  | down (fbi : ℕ)
  | up (fbi : ℕ)
deriving DecidableEq

def BlurPass.isDown : BlurPass → Bool
  | .down _ => true
  | .up _ => false

def BlurPass.isUp : BlurPass → Bool
  | .down _ => false
  | .up _ => true

/-- The chain index of the target a pass writes into. -/
def BlurPass.fbIndex : BlurPass → ℕ
  | .down fbi => fbi
  | .up fbi => fbi

/-- The texture bound for the final draw-to-screen quad. -/
inductive TexSource where
  | original
  | chain (fbi : ℕ)
deriving DecidableEq

/-- Kawase downsample loop `for fbi in 1..=self.blur.layers`, ascending:
iteration `fbi` writes `composite_fbs[fbi]`. -/
def kawaseDowns : ℕ → List BlurPass
  | 0 => []
  | n + 1 => kawaseDowns n ++ [BlurPass.down (n + 1)]

/-- Kawase upsample loop `for fbi in (0..self.blur.layers).rev()`, descending:
iteration `fbi` writes `composite_fbs[fbi]`. -/
def kawaseUps : ℕ → List BlurPass
  | 0 => []
  | n + 1 => BlurPass.up n :: kawaseUps n

/-- Pass sequence of `KawaseScene::draw_with_clear_color`: with `layers = 0`
the chain is skipped entirely, otherwise downsamples then upsamples. -/
def kawaseFramePasses (layers : ℕ) : List BlurPass :=
  if layers = 0 then [] else kawaseDowns layers ++ kawaseUps layers

/-- Texture bound for the final quad in `KawaseScene::draw_with_clear_color`:
`gura_texture` when `layers = 0`, else the output of the last pass
(`input_fb` threads through the passes, starting at chain index 0). -/
def kawaseFrameTexture (layers : ℕ) : TexSource :=
  if layers = 0 then TexSource.original
  else TexSource.chain ((kawaseFramePasses layers).foldl (fun _ p => p.fbIndex) 0)

/-- `BlurringScene` blur direction angles: `&[PI / 4.0]` if diagonal else `&[0.0]`. -/
noncomputable def blurAngles (isDiagonal : Bool) : List ℝ :=
  if isDiagonal then [Real.pi / 4] else [0]

/-- Ping-pong downsample loop `for fbi in 0..self.blur.layers` with inner
`for angle in angles`: iteration `fbi` writes `composite_fbs[fbi].0`
(through the ping-pong scratch target of the same level). -/
def blurDowns (angles : List ℝ) : ℕ → List BlurPass
  | 0 => []
  | n + 1 => blurDowns angles n ++ angles.map (fun _ => BlurPass.down n)

/-- Ping-pong upsample loop `for fbi in (0..(self.blur.layers - 1)).rev()`
with inner `for angle in angles`, descending from `layers - 2`. -/
def blurUps (angles : List ℝ) : ℕ → List BlurPass
  | 0 => []
  | n + 1 => angles.map (fun _ => BlurPass.up n) ++ blurUps angles n

/-- Pass sequence of `BlurringScene::draw_with_clear_color`. The upsample loop
runs over `0..(layers - 1)`. -/
noncomputable def blurFramePasses (isDiagonal : Bool) (layers : ℕ) : List BlurPass :=
  if layers = 0 then []
  else blurDowns (blurAngles isDiagonal) layers ++ blurUps (blurAngles isDiagonal) (layers - 1)

/-- Texture bound for the final quad in `BlurringScene::draw_with_clear_color`. -/
noncomputable def blurFrameTexture (isDiagonal : Bool) (layers : ℕ) : TexSource :=
  if layers = 0 then TexSource.original
  else TexSource.chain ((blurFramePasses isDiagonal layers).foldl (fun _ p => p.fbIndex) 0)

/-! ## Key-driven blur parameter mutation -/

/-- The logical keys the two scenes' `on_key` handlers distinguish. -/
inductive KeyInput where
  | arrowRight
  | arrowLeft
  | arrowUp
  | arrowDown
  | charD
  | charLowerL
  | charUpperL
  | charSlash
  | otherKey

/-- `KawaseScene`'s `BlurParams` (`radius: f32`, `layers: usize`, `is_dithered`). -/
structure KawaseParams where
  radius : ℚ
  layers : ℕ
  isDithered : Bool

/-- Initial Kawase parameters: `radius: 1.0, layers: 1, is_dithered: false`. -/
def kawaseInitParams : KawaseParams :=
  { radius := 1, layers := 1, isDithered := false }

/-- `KawaseScene::on_key`. The radius cap is `*RESDIVS.last().unwrap() as f32 / 2.0`;
`"L"` uses `saturating_sub`. -/
def kawaseOnKey (k : KeyInput) (p : KawaseParams) : KawaseParams :=
  match k with
  | .arrowRight => { p with radius := min (p.radius + 1/10) ((RESDIVS.getLastD 0 : ℚ) / 2) }
  | .arrowLeft => { p with radius := max (p.radius - 1/10) (2/10) }
  | .charD => { p with isDithered := !p.isDithered }
  | .charLowerL => { p with layers := min (p.layers + 1) 5 }
  | .charUpperL => { p with layers := p.layers - 1 }
  | _ => p

/-- `BlurringScene`'s `BlurParams` (`kernel: i32`, `radius: f32`, `layers: usize`,
`is_diagonal`, `is_dithered`). -/
structure BlurringParams where
  kernel : ℤ
  radius : ℚ
  layers : ℕ
  isDiagonal : Bool
  isDithered : Bool

/-- Initial blurring parameters: `kernel: 5, layers: 4, radius: 2.0`, flags false. -/
def blurringInitParams : BlurringParams :=
  { kernel := 5, radius := 2, layers := 4, isDiagonal := false, isDithered := false }

/-- `BlurringScene::on_key`. -/
def blurringOnKey (k : KeyInput) (p : BlurringParams) : BlurringParams :=
  match k with
  | .arrowUp => { p with kernel := min (p.kernel + 1) 64 }
  | .arrowDown => { p with kernel := max (p.kernel - 1) 0 }
  | .arrowRight => { p with radius := min (p.radius + 1/10) ((RESDIVS.getLastD 0 : ℚ) / 2) }
  | .arrowLeft => { p with radius := max (p.radius - 1/10) 0 }
  | .charD => { p with isDithered := !p.isDithered }
  | .charSlash => { p with isDiagonal := !p.isDiagonal }
  | .charLowerL => { p with layers := min (p.layers + 1) RESDIVS.length }
  | .charUpperL => { p with layers := p.layers - 1 }
  | _ => p

/-! ## Partial vertex upload (`RoundQuadsScene::update_vertices`) -/

/-- `const N_QUADS: usize = 100_000`. -/
def nQuads : ℕ := 100000

/-- `mem::size_of::<Vertex>()` for the round-quads `Vertex`:
`position: Vec2, size: Vec2, fill_color: Vec4, stroke_color: Vec4,
border_radius: f32, border_width: f32, intensity: f32` — 15 `f32`s, `repr(C)`. -/
def vertexBytes : ℕ := 15 * 4

/-- One entity's vertex data `[Vertex; 4]`. -/
def quadVerticesBytes : ℕ := 4 * vertexBytes

/-- The `gl::BufferSubData` calls `RoundQuadsScene::update_vertices` issues,
as `(byte offset, byte length)` pairs, one per row `y in y_beg..=y_end`:
offset `= size_of_val(&self.vertices[..i_beg])`, length
`= size_of_val(&self.vertices[i_beg..=i_end])` with
`i_beg = y * area_width + x_beg`, `i_end = y * area_width + x_end`. -/
def updateVerticesCalls (areaWidth xBeg xEnd yBeg yEnd : ℕ) : List (ℕ × ℕ) :=
  (List.range' yBeg (yEnd + 1 - yBeg)).map (fun y =>
    ((y * areaWidth + xBeg) * quadVerticesBytes,
     ((y * areaWidth + xEnd) + 1 - (y * areaWidth + xBeg)) * quadVerticesBytes))

/-! ## Camera and scene controller (`src/camera.rs`, `src/scene.rs`)

`Vec2` is modelled as `ℝ × ℝ` with componentwise arithmetic (`Prod` instances);
`f32` scalars as `ℝ`; `powf` as `Real.rpow`. -/

/-- `Camera { position: Vec2, rotation: f32, scale: Vec2 }`. -/
structure Camera where
  position : ℝ × ℝ
  rotation : ℝ
  scale : ℝ × ℝ

/-- `SceneController` state. `mousePressed` is
`mouse_state == ElementState::Pressed`. The monotonic clock is modelled by
passing the new `start.elapsed()` value to `update`. -/
structure SceneController where
  camera : Camera
  mousePos : ℝ × ℝ
  mousePosHeld : ℝ × ℝ
  mousePressed : Bool
  scrollSpeed : ℝ
  hardScale : ℝ × ℝ
  prevElapsed : ℝ
  currentElapsed : ℝ

/-- `SceneController::update`: smooth scrolling
(`scale += time_delta.powf(0.6) * (hard_scale - scale)`), then mouse dragging
(`position += (mouse_pos - mouse_pos_held) / scale` while pressed), then the
frame-interval bookkeeping. -/
noncomputable def SceneController.update (s : SceneController) (now : ℝ) : SceneController :=
  let timeDelta := s.currentElapsed - s.prevElapsed
  let scale := s.camera.scale + (timeDelta ^ (0.6 : ℝ)) • (s.hardScale - s.camera.scale)
  let position :=
    if s.mousePressed then s.camera.position + (s.mousePos - s.mousePosHeld) / scale
    else s.camera.position
  { s with
    camera := { s.camera with scale := scale, position := position }
    prevElapsed := s.currentElapsed
    currentElapsed := now }

/-- The window events `SceneController::interact` matches on. A pixel-delta
scroll of `pos.y` behaves like a line delta of `pos.y / 100`. -/
inductive CtlEvent where
  | cursorMoved (pos : ℝ × ℝ)
  | mouseInput (pressed : Bool)
  | mouseWheelLine (y : ℝ)
  | mouseWheelPixel (y : ℝ)
  | otherEvent

/-- `SceneController::interact`. -/
noncomputable def SceneController.interact (s : SceneController) (e : CtlEvent) :
    SceneController :=
  match e with
  | .cursorMoved p => { s with mousePos := p }
  | .mouseInput pressed =>
      { s with
        mousePressed := pressed
        mousePosHeld := if pressed then s.mousePos else s.mousePosHeld }
  | .mouseWheelLine y =>
      { s with hardScale := ((2 : ℝ) ^ (s.scrollSpeed * y)) • s.hardScale }
  | .mouseWheelPixel py =>
      { s with hardScale := ((2 : ℝ) ^ (s.scrollSpeed * (py / 100))) • s.hardScale }
  | .otherEvent => s

/-- A run of consecutive `update()` calls (no events in between), fed the
successive clock readings. -/
noncomputable def SceneController.updateSeq (s : SceneController) : List ℝ → SceneController
  | [] => s
  | t :: ts => (s.update t).updateSeq ts

/-- A concrete controller state used by witnesses: pointer held at `(3, 4)`
with anchor `(1, 1)`, scale and target scale both `(1, 1)`. -/
noncomputable def sampleController : SceneController :=
  { camera := { position := (0, 0), rotation := 0, scale := (1, 1) }
    mousePos := (3, 4)
    mousePosHeld := (1, 1)
    mousePressed := true
    scrollSpeed := 1
    hardScale := (1, 1)
    prevElapsed := 0
    currentElapsed := 1 }

/-! ## glam matrix math used by `Camera` (`src/camera.rs`)

Column-major 4×4 matrices over `ℝ`, following glam's `Mat4`: a matrix is four
column axes; `m * v` takes linear combinations of the columns; `a * b` maps
`b`'s columns through `a`. -/

structure Vec4 where
  x : ℝ
  y : ℝ
  z : ℝ
  w : ℝ

structure Mat4 where
  xAxis : Vec4
  yAxis : Vec4
  zAxis : Vec4
  wAxis : Vec4

def Mat4.mulVec (m : Mat4) (v : Vec4) : Vec4 where
  x := m.xAxis.x * v.x + m.yAxis.x * v.y + m.zAxis.x * v.z + m.wAxis.x * v.w
  y := m.xAxis.y * v.x + m.yAxis.y * v.y + m.zAxis.y * v.z + m.wAxis.y * v.w
  z := m.xAxis.z * v.x + m.yAxis.z * v.y + m.zAxis.z * v.z + m.wAxis.z * v.w
  w := m.xAxis.w * v.x + m.yAxis.w * v.y + m.zAxis.w * v.z + m.wAxis.w * v.w

def Mat4.mul (a b : Mat4) : Mat4 :=
  ⟨a.mulVec b.xAxis, a.mulVec b.yAxis, a.mulVec b.zAxis, a.mulVec b.wAxis⟩

/-- glam `Mat4::from_translation`. -/
def Mat4.fromTranslation (tx ty tz : ℝ) : Mat4 :=
  ⟨⟨1, 0, 0, 0⟩, ⟨0, 1, 0, 0⟩, ⟨0, 0, 1, 0⟩, ⟨tx, ty, tz, 1⟩⟩

/-- glam `Mat4::from_rotation_z`. -/
noncomputable def Mat4.fromRotationZ (angle : ℝ) : Mat4 :=
  ⟨⟨Real.cos angle, Real.sin angle, 0, 0⟩,
   ⟨-Real.sin angle, Real.cos angle, 0, 0⟩,
   ⟨0, 0, 1, 0⟩, ⟨0, 0, 0, 1⟩⟩

/-- glam `Mat4::from_scale`. -/
def Mat4.fromScale (sx sy sz : ℝ) : Mat4 :=
  ⟨⟨sx, 0, 0, 0⟩, ⟨0, sy, 0, 0⟩, ⟨0, 0, sz, 0⟩, ⟨0, 0, 0, 1⟩⟩

/-- glam `Mat4::orthographic_lh` (left-handed, depth range `[0, 1]`). -/
noncomputable def Mat4.orthographicLH (left right bottom top near far : ℝ) : Mat4 :=
  let rcpWidth := 1 / (right - left)
  let rcpHeight := 1 / (top - bottom)
  let r := 1 / (far - near)
  ⟨⟨rcpWidth + rcpWidth, 0, 0, 0⟩,
   ⟨0, rcpHeight + rcpHeight, 0, 0⟩,
   ⟨0, 0, r, 0⟩,
   ⟨-(left + right) * rcpWidth, -(top + bottom) * rcpHeight, -r * near, 1⟩⟩

/-- `Camera::real_size`: `viewport / scale`, componentwise. -/
noncomputable def Camera.realSize (c : Camera) (viewport : ℝ × ℝ) : ℝ × ℝ :=
  (viewport.1 / c.scale.1, viewport.2 / c.scale.2)

/-- `Camera::center_offset`: `real_size / 2`. -/
noncomputable def Camera.centerOffset (c : Camera) (viewport : ℝ × ℝ) : ℝ × ℝ :=
  ((c.realSize viewport).1 / 2, (c.realSize viewport).2 / 2)

/-- `Camera::pointer_to_pos`:
`T(-pos) * T(-origin) * Rz(-rotation) * S(1/scale) * (pointer, 0, 1)`, taking
`xy`; `pos = position.extend(-(u16::MAX as f32 / 2.0))`, so `-pos` has
`z = 65535 / 2`. -/
noncomputable def Camera.pointerToPos (c : Camera) (pointer viewport : ℝ × ℝ) : ℝ × ℝ :=
  let origin := c.centerOffset viewport
  let m :=
    (Mat4.fromTranslation (-c.position.1) (-c.position.2) (65535 / 2)).mul
      ((Mat4.fromTranslation (-origin.1) (-origin.2) 0).mul
        ((Mat4.fromRotationZ (-c.rotation)).mul
          (Mat4.fromScale (1 / c.scale.1) (1 / c.scale.2) 1)))
  let v := m.mulVec ⟨pointer.1, pointer.2, 0, 1⟩
  (v.x, v.y)

/-- `Camera::matrix`:
`ortho(0, rs.x, rs.y, 0, 0, 65535) * T(origin) * Rz(rotation) * T(pos)` with
`origin = real_size / 2` and `pos = position.extend(-(65535 / 2))`. -/
noncomputable def Camera.matrix (c : Camera) (viewport : ℝ × ℝ) : Mat4 :=
  let realSize := c.realSize viewport
  let origin := (realSize.1 / 2, realSize.2 / 2)
  (Mat4.orthographicLH 0 realSize.1 realSize.2 0 0 65535).mul
    ((Mat4.fromTranslation origin.1 origin.2 0).mul
      ((Mat4.fromRotationZ c.rotation).mul
        (Mat4.fromTranslation c.position.1 c.position.2 (-(65535 / 2)))))

/-! ### Spec-side descriptions of the transform chain (for the refinement
claims C1 and C2); these follow the spec's words, not the source. -/

/-- Spec: "a translation placing the camera at `(-position, -32767.5)` in view
space": world point `v` moves by `(+position, -65535/2)`. -/
noncomputable def specCameraTranslate (c : Camera) (v : ℝ × ℝ × ℝ) : ℝ × ℝ × ℝ :=
  (v.1 + c.position.1, v.2.1 + c.position.2, v.2.2 - 65535 / 2)

/-- Spec: "a z-axis rotation by the camera's rotation". -/
noncomputable def specRotateZ (angle : ℝ) (v : ℝ × ℝ × ℝ) : ℝ × ℝ × ℝ :=
  (Real.cos angle * v.1 - Real.sin angle * v.2.1,
   Real.sin angle * v.1 + Real.cos angle * v.2.1, v.2.2)

/-- Spec: "a translation re-centering the origin at `realSize / 2`". -/
noncomputable def specCenterTranslate (rs : ℝ × ℝ) (v : ℝ × ℝ × ℝ) : ℝ × ℝ × ℝ :=
  (v.1 + rs.1 / 2, v.2.1 + rs.2 / 2, v.2.2)

/-- Spec: "an orthographic projection over `[0, realSize.x] × [realSize.y, 0]`
with depth range `[0, 65535]`" (mapped to `[0, 1]` clip depth). -/
noncomputable def specOrthoProject (rs : ℝ × ℝ) (v : ℝ × ℝ × ℝ) : ℝ × ℝ × ℝ :=
  (2 * v.1 / rs.1 - 1, 1 - 2 * v.2.1 / rs.2, v.2.2 / 65535)

/-- Package a 3-point as a homogeneous `Vec4` with `w = 1`. -/
def pointVec4 (v : ℝ × ℝ × ℝ) : Vec4 :=
  ⟨v.1, v.2.1, v.2.2, 1⟩

/-- Spec-side world-to-screen map of claim C1, literal reading: `matrix()`
"restricted to its pre-projection part", i.e. `T(origin) * Rz * T(pos)`
applied to the world point. -/
noncomputable def worldToScreenPre (c : Camera) (viewport p : ℝ × ℝ) : ℝ × ℝ :=
  let realSize := c.realSize viewport
  let origin := (realSize.1 / 2, realSize.2 / 2)
  let m :=
    (Mat4.fromTranslation origin.1 origin.2 0).mul
      ((Mat4.fromRotationZ c.rotation).mul
        (Mat4.fromTranslation c.position.1 c.position.2 (-(65535 / 2))))
  let v := m.mulVec ⟨p.1, p.2, 0, 1⟩
  (v.x, v.y)

/-- Spec-side world-to-pixel map: the full `matrix()` transform followed by the
standard NDC-to-pixel viewport mapping (pointer pixel coordinates have `y`
pointing down). -/
noncomputable def worldToScreenPx (c : Camera) (viewport p : ℝ × ℝ) : ℝ × ℝ :=
  let v := (c.matrix viewport).mulVec ⟨p.1, p.2, 0, 1⟩
  ((v.x + 1) / 2 * viewport.1, (1 - v.y) / 2 * viewport.2)

/-! ## Round-quads grid reactive update (`RoundQuadsScene::draw`)

The grid is modelled as functions from the row-major entity index to the
entity (`Quad`) and to its 4-vertex data block. -/

/-- `Quad` of `round_quads.rs` (colors are packed `u32`s). -/
structure QuadData where
  position : ℝ × ℝ
  size : ℝ × ℝ
  rotation : ℝ
  borderRadius : ℝ
  borderWidth : ℝ
  fillColor : ℕ
  strokeColor : ℕ

/-- `Vertex` of `round_quads.rs`. -/
structure VertexData where
  position : ℝ × ℝ
  size : ℝ × ℝ
  fillColor : ℝ × ℝ × ℝ × ℝ
  strokeColor : ℝ × ℝ × ℝ × ℝ
  borderRadius : ℝ
  borderWidth : ℝ
  intensity : ℝ

/-- `Vec4::from_array(color.to_le_bytes().map(|n| n as f32)) / 255.0`. -/
noncomputable def colorToVec4 (n : ℕ) : ℝ × ℝ × ℝ × ℝ :=
  (((n % 256 : ℕ) : ℝ) / 255, ((n / 256 % 256 : ℕ) : ℝ) / 255,
   ((n / 65536 % 256 : ℕ) : ℝ) / 255, ((n / 16777216 % 256 : ℕ) : ℝ) / 255)

/-- glam `Vec2::rotate` (the complex product of the two vectors). -/
noncomputable def rotateVec (a b : ℝ × ℝ) : ℝ × ℝ :=
  (a.1 * b.1 - a.2 * b.2, a.1 * b.2 + a.2 * b.1)

/-- `Quad::vertices(intensity)`: the four corners `(±0.5, ±0.5) * size`,
rotated by `(cos rotation, sin rotation)` and offset by `position`. -/
noncomputable def QuadData.vertices (q : QuadData) (intensity : ℝ) :
    VertexData × VertexData × VertexData × VertexData :=
  let r := (Real.cos q.rotation, Real.sin q.rotation)
  let mkV := fun (corner : ℝ × ℝ) =>
    ({ position := rotateVec (corner.1 * q.size.1, corner.2 * q.size.2) r + q.position
       size := q.size
       fillColor := colorToVec4 q.fillColor
       strokeColor := colorToVec4 q.strokeColor
       borderRadius := q.borderRadius
       borderWidth := q.borderWidth
       intensity := intensity } : VertexData)
  (mkV (-(1/2), -(1/2)), mkV (-(1/2), 1/2), mkV (1/2, 1/2), mkV (1/2, -(1/2)))

/-- `Quad::pos_from_grid_idx`: `(vec2(x, y) - area_width * 0.5) * 16.0`. -/
noncomputable def posFromGridIdx (x y areaWidth : ℕ) : ℝ × ℝ :=
  (((x : ℝ) - (areaWidth : ℝ) * (1 / 2)) * 16, ((y : ℝ) - (areaWidth : ℝ) * (1 / 2)) * 16)

/-- `f32::round` (half away from zero) on the real model. -/
noncomputable def roundAwayR (x : ℝ) : ℤ :=
  if 0 ≤ x then ⌊x + 1 / 2⌋ else -⌊-x + 1 / 2⌋

/-- `Quad::closest_grid_idx_from_pos` on the real model: the rounded value is
integral, so `clamp(0.0, width - 1.0)` followed by `as u32` is the integer
clamp into `[0, areaWidth - 1]`. -/
noncomputable def closestGridIdxR (pos : ℝ × ℝ) (areaWidth : ℕ) : ℕ × ℕ :=
  ((min (max (roundAwayR (pos.1 / 16 + (areaWidth : ℝ) * (1 / 2))) 0)
      ((areaWidth : ℤ) - 1)).toNat,
   (min (max (roundAwayR (pos.2 / 16 + (areaWidth : ℝ) * (1 / 2))) 0)
      ((areaWidth : ℤ) - 1)).toNat)

/-- glam `Vec2::distance`. -/
noncomputable def vecDistance (a b : ℝ × ℝ) : ℝ :=
  Real.sqrt ((a.1 - b.1) ^ 2 + (a.2 - b.2) ^ 2)

/-- `(surround_radius - distance).max(0.0) / surround_radius`. -/
noncomputable def surroundIntensity (radius : ℝ) (entityPos mousePos : ℝ × ℝ) : ℝ :=
  max (radius - vecDistance entityPos mousePos) 0 / radius

/-- The mutable per-frame grid state: entities and their uploaded vertex data. -/
structure GridState where
  quads : ℕ → QuadData
  vertices : ℕ → VertexData × VertexData × VertexData × VertexData

/-- One iteration of the surround loop body of `RoundQuadsScene::draw` at grid
coordinate `xy`: guarded by `self.quads.get_mut(i)` (`i < total`), bump the
rotation by `(dt * PI) * 2.0 * intensity` and rebuild the vertex block with
intensity argument `2.0 * intensity + 0.5`. -/
noncomputable def surroundStep (dt radius : ℝ) (mousePos : ℝ × ℝ)
    (areaWidth total : ℕ) (st : GridState) (xy : ℕ × ℕ) : GridState :=
  let i := xy.2 * areaWidth + xy.1
  if i < total then
    let q := st.quads i
    let intensity := surroundIntensity radius q.position mousePos
    let q2 := { q with rotation := q.rotation + dt * Real.pi * 2 * intensity }
    { quads := Function.update st.quads i q2
      vertices := Function.update st.vertices i (q2.vertices (2 * intensity + 1 / 2)) }
  else st

/-- The inclusive rectangle `x_beg..=x_end` × `y_beg..=y_end` in loop order
(`y` outer, `x` inner). -/
def rectPairs (xBeg xEnd yBeg yEnd : ℕ) : List (ℕ × ℕ) :=
  (List.range' yBeg (yEnd + 1 - yBeg)).flatMap
    (fun y => (List.range' xBeg (xEnd + 1 - xBeg)).map (fun x => (x, y)))

/-- The reactive surround update of `RoundQuadsScene::draw`: derive the
bounding rectangle from `closest_grid_idx_from_pos(mouse_pos ∓ surround_area)`
and fold the loop body over it. -/
noncomputable def surroundUpdate (dt radius : ℝ) (mousePos : ℝ × ℝ)
    (areaWidth total : ℕ) (st : GridState) : GridState :=
  let b := closestGridIdxR (mousePos - (radius, radius)) areaWidth
  let e := closestGridIdxR (mousePos + (radius, radius)) areaWidth
  (rectPairs b.1 e.1 b.2 e.2).foldl
    (surroundStep dt radius mousePos areaWidth total) st

/-- A concrete entity for witnesses. -/
noncomputable def sampleQuad : QuadData :=
  { position := posFromGridIdx 0 0 2, size := (10, 10), rotation := 0
    borderRadius := 1, borderWidth := 1, fillColor := 0, strokeColor := 0 }

/-- A concrete 2×2 grid state for witnesses. -/
noncomputable def sampleGrid : GridState :=
  { quads := fun _ => sampleQuad, vertices := fun _ => sampleQuad.vertices (1 / 2) }

/-! # Theorems -/

/-- Claim C8: for all grid coordinates `(x, y)` with `0 ≤ x < areaWidth` and
`0 ≤ y < areaWidth`, converting to the row-major index `y * areaWidth + x` and
back through `gridCoordFromIndex` yields exactly `(x, y)`. -/
theorem grid_index_bijection (x y areaWidth : ℕ)
    (hx : x < areaWidth) (hy : y < areaWidth) :
    gridCoordFromIndex (indexFromGridCoord x y areaWidth) areaWidth = (x, y) := by
  have h0 : 0 < areaWidth := Nat.lt_of_le_of_lt (Nat.zero_le x) hx
  unfold gridCoordFromIndex indexFromGridCoord
  rw [Nat.add_comm (y * areaWidth) x]
  refine Prod.ext ?_ ?_
  · rw [Nat.add_mul_mod_self_right]
    exact Nat.mod_eq_of_lt hx
  · rw [Nat.add_mul_div_right x y h0, Nat.div_eq_of_lt hx]
    exact Nat.zero_add y

/-- Witness for `grid_index_bijection` at `x = 7`, `y = 5`, `areaWidth = 316`. -/
theorem grid_index_bijection_witness :
    7 < 316 ∧ 5 < 316 ∧ gridCoordFromIndex (indexFromGridCoord 7 5 316) 316 = (7, 5) :=
  ⟨by decide, by decide, grid_index_bijection 7 5 316 (by decide) (by decide)⟩

/-- Claim C9: for every world position input, including non-finite components,
and every `areaWidth ≥ 1`, `closest_grid_idx_from_pos` returns coordinates with
both axes in `[0, areaWidth - 1]`. -/
theorem closest_grid_idx_in_range (pos : F32 × F32) (areaWidth : ℕ)
    (haw : 1 ≤ areaWidth) :
    (closestGridIdxF32 pos areaWidth).1 ≤ areaWidth - 1 ∧
      (closestGridIdxF32 pos areaWidth).2 ≤ areaWidth - 1 := by
  have key : ∀ v : F32,
      (((v.divC 16).addC ((areaWidth : ℚ) * (1/2))).round.clamp 0
          ((areaWidth : ℚ) - 1)).toU32 ≤ areaWidth - 1 := by
    intro v
    have hup : ((areaWidth : ℚ) - 1) = (((areaWidth : ℤ) - 1 : ℤ) : ℚ) := by push_cast; ring
    have hfl : ⌊(areaWidth : ℚ) - 1⌋ = (areaWidth : ℤ) - 1 := by
      rw [hup, Int.floor_intCast]
    cases v with
    | fin q =>
      simp only [F32.divC, F32.addC, F32.round, F32.clamp, F32.toU32]
      set r : ℚ := min (max ((roundAway (q / 16 + (areaWidth : ℚ) * (1/2))) : ℚ) 0)
        ((areaWidth : ℚ) - 1) with hr
      by_cases h0 : 0 ≤ r
      · simp only [h0, if_true]
        have hrle : r ≤ (areaWidth : ℚ) - 1 := min_le_right _ _
        have : ⌊r⌋ ≤ (areaWidth : ℤ) - 1 := by
          calc ⌊r⌋ ≤ ⌊(areaWidth : ℚ) - 1⌋ := Int.floor_le_floor hrle
          _ = (areaWidth : ℤ) - 1 := hfl
        have h1 : ⌊r⌋.toNat ≤ areaWidth - 1 := by omega
        exact le_trans (min_le_left _ _) h1
      · simp only [h0, if_false]
        exact Nat.zero_le _
    | nan =>
      simp [F32.divC, F32.addC, F32.round, F32.clamp, F32.toU32]
    | inf =>
      simp only [F32.divC, F32.addC, F32.round, F32.clamp, F32.toU32]
      have h0 : (0 : ℚ) ≤ (areaWidth : ℚ) - 1 := by
        have : (1 : ℚ) ≤ (areaWidth : ℚ) := by exact_mod_cast haw
        linarith
      simp only [h0, if_true, hfl]
      have : ((areaWidth : ℤ) - 1).toNat = areaWidth - 1 := by omega
      rw [this]
      exact min_le_left _ _
    | ninf =>
      simp [F32.divC, F32.addC, F32.round, F32.clamp, F32.toU32]
  exact ⟨key pos.1, key pos.2⟩

/-- Witness for `closest_grid_idx_in_range` at `pos = (NaN, +∞)`, `areaWidth = 316`. -/
theorem closest_grid_idx_in_range_witness :
    1 ≤ 316 ∧
      (closestGridIdxF32 (F32.nan, F32.inf) 316).1 ≤ 315 ∧
      (closestGridIdxF32 (F32.nan, F32.inf) 316).2 ≤ 315 :=
  ⟨by decide,
   (closest_grid_idx_in_range (F32.nan, F32.inf) 316 (by decide)).1,
   (closest_grid_idx_in_range (F32.nan, F32.inf) 316 (by decide)).2⟩

/-! ## Blur pass sequencing -/

theorem kawaseDowns_countP_down (n : ℕ) :
    (kawaseDowns n).countP BlurPass.isDown = n := by
  induction n with
  | zero => rfl
  | succ n ih => simp [kawaseDowns, List.countP_append, ih, BlurPass.isDown, List.countP_cons]

theorem kawaseDowns_countP_up (n : ℕ) :
    (kawaseDowns n).countP BlurPass.isUp = 0 := by
  induction n with
  | zero => rfl
  | succ n ih => simp [kawaseDowns, List.countP_append, ih, BlurPass.isUp, List.countP_cons]

theorem kawaseUps_countP_up (n : ℕ) :
    (kawaseUps n).countP BlurPass.isUp = n := by
  induction n with
  | zero => rfl
  | succ n ih => simp [kawaseUps, ih, BlurPass.isUp, List.countP_cons]

theorem kawaseUps_countP_down (n : ℕ) :
    (kawaseUps n).countP BlurPass.isDown = 0 := by
  induction n with
  | zero => rfl
  | succ n ih => simp [kawaseUps, ih, BlurPass.isDown, List.countP_cons]

theorem kawaseDowns_filter (n : ℕ) :
    (kawaseDowns n).filter BlurPass.isDown = kawaseDowns n ∧
      (kawaseDowns n).filter BlurPass.isUp = [] := by
  induction n with
  | zero => exact ⟨rfl, rfl⟩
  | succ n ih =>
    simp [kawaseDowns, List.filter_append, ih.1, ih.2, BlurPass.isDown, BlurPass.isUp]

theorem kawaseUps_filter (n : ℕ) :
    (kawaseUps n).filter BlurPass.isUp = kawaseUps n ∧
      (kawaseUps n).filter BlurPass.isDown = [] := by
  induction n with
  | zero => exact ⟨rfl, rfl⟩
  | succ n ih =>
    simp [kawaseUps, List.filter_cons, ih.1, ih.2, BlurPass.isDown, BlurPass.isUp]

theorem blurAngles_length (d : Bool) : (blurAngles d).length = 1 := by
  cases d <;> simp [blurAngles]

theorem countP_replicate_of_pos {α : Type} (p : α → Bool) (a : α) (h : p a = true)
    (n : ℕ) : (List.replicate n a).countP p = n := by
  induction n with
  | zero => rfl
  | succ n ih => simp [List.replicate_succ, List.countP_cons, ih, h]

theorem countP_replicate_of_neg {α : Type} (p : α → Bool) (a : α) (h : p a = false)
    (n : ℕ) : (List.replicate n a).countP p = 0 := by
  induction n with
  | zero => rfl
  | succ n ih => simp [List.replicate_succ, List.countP_cons, ih, h]

theorem blurDowns_countP_down (angles : List ℝ) (n : ℕ) :
    (blurDowns angles n).countP BlurPass.isDown = n * angles.length := by
  induction n with
  | zero => simp [blurDowns]
  | succ n ih =>
    simp [blurDowns, List.countP_append, ih, List.countP_map, BlurPass.isDown,
      Function.comp_def, Nat.succ_mul,
      countP_replicate_of_pos BlurPass.isDown (BlurPass.down n) rfl]

theorem blurDowns_countP_up (angles : List ℝ) (n : ℕ) :
    (blurDowns angles n).countP BlurPass.isUp = 0 := by
  induction n with
  | zero => simp [blurDowns]
  | succ n ih =>
    simp [blurDowns, List.countP_append, ih, List.countP_map, Function.comp_def,
      countP_replicate_of_neg BlurPass.isUp (BlurPass.down n) rfl]

theorem blurUps_countP_up (angles : List ℝ) (n : ℕ) :
    (blurUps angles n).countP BlurPass.isUp = n * angles.length := by
  induction n with
  | zero => simp [blurUps]
  | succ n ih =>
    simp [blurUps, List.countP_append, ih, List.countP_map, Function.comp_def,
      Nat.succ_mul, Nat.add_comm,
      countP_replicate_of_pos BlurPass.isUp (BlurPass.up n) rfl]

theorem blurUps_countP_down (angles : List ℝ) (n : ℕ) :
    (blurUps angles n).countP BlurPass.isDown = 0 := by
  induction n with
  | zero => simp [blurUps]
  | succ n ih =>
    simp [blurUps, List.countP_append, ih, List.countP_map, Function.comp_def,
      countP_replicate_of_neg BlurPass.isDown (BlurPass.up n) rfl]

theorem blurDowns_filter (angles : List ℝ) (n : ℕ) :
    (blurDowns angles n).filter BlurPass.isDown = blurDowns angles n ∧
      (blurDowns angles n).filter BlurPass.isUp = [] := by
  induction n with
  | zero => exact ⟨rfl, rfl⟩
  | succ n ih =>
    constructor
    · simp [blurDowns, List.filter_append, ih.1, List.filter_map, BlurPass.isDown,
        Function.comp_def]
    · simp [blurDowns, List.filter_append, ih.2, List.filter_map, BlurPass.isUp,
        Function.comp_def]

theorem blurUps_filter (angles : List ℝ) (n : ℕ) :
    (blurUps angles n).filter BlurPass.isUp = blurUps angles n ∧
      (blurUps angles n).filter BlurPass.isDown = [] := by
  induction n with
  | zero => exact ⟨rfl, rfl⟩
  | succ n ih =>
    constructor
    · simp [blurUps, List.filter_append, ih.1, List.filter_map, BlurPass.isUp,
        Function.comp_def]
    · simp [blurUps, List.filter_append, ih.2, List.filter_map, BlurPass.isDown,
        Function.comp_def]

/-- Counterexample for claim C3: with `layers = 1` the ping-pong compositor
(`BlurringScene`) performs zero upsample passes, not one — its upsample loop
runs over `0..(layers - 1)`. -/
theorem blurring_one_layer_no_upsample :
    ¬ ((blurFramePasses false 1).countP BlurPass.isUp = 1) := by
  have h : (blurFramePasses false 1).countP BlurPass.isUp = 0 := by
    simp [blurFramePasses, blurDowns, blurUps, blurAngles, List.countP_append,
      List.countP_map, BlurPass.isUp, Function.comp_def]
  omega

/-- Claim C3 (amended): for a layer count `L` in `[0, chainLength]`, one frame
performs, in the Kawase variant, exactly `L` downsample passes followed by
exactly `L` upsample passes; in the ping-pong variant, exactly `L` downsample
passes followed by exactly `L - 1` upsample passes (`L ≥ 1`). With `L = 0`
both variants perform zero passes and bind the original source texture. -/
theorem blur_chain_pass_counts (L : ℕ) (hL : L ≤ RESDIVS.length) (d : Bool) :
    ((kawaseFramePasses L).countP BlurPass.isDown = L ∧
      (kawaseFramePasses L).countP BlurPass.isUp = L ∧
      kawaseFramePasses L =
        (kawaseFramePasses L).filter BlurPass.isDown ++
          (kawaseFramePasses L).filter BlurPass.isUp ∧
      (L = 0 → kawaseFramePasses L = [] ∧ kawaseFrameTexture L = TexSource.original)) ∧
    ((blurFramePasses d L).countP BlurPass.isDown = L ∧
      (blurFramePasses d L).countP BlurPass.isUp = L - 1 ∧
      blurFramePasses d L =
        (blurFramePasses d L).filter BlurPass.isDown ++
          (blurFramePasses d L).filter BlurPass.isUp ∧
      (L = 0 → blurFramePasses d L = [] ∧ blurFrameTexture d L = TexSource.original)) := by
  constructor
  · by_cases h0 : L = 0
    · subst h0
      refine ⟨rfl, rfl, rfl, fun _ => ⟨rfl, rfl⟩⟩
    · constructor
      · simp [kawaseFramePasses, h0, List.countP_append, kawaseDowns_countP_down,
          kawaseUps_countP_down]
      constructor
      · simp [kawaseFramePasses, h0, List.countP_append, kawaseDowns_countP_up,
          kawaseUps_countP_up]
      constructor
      · simp [kawaseFramePasses, h0, List.filter_append, (kawaseDowns_filter L).1,
          (kawaseDowns_filter L).2, (kawaseUps_filter L).1, (kawaseUps_filter L).2]
      · intro h; exact absurd h h0
  · by_cases h0 : L = 0
    · subst h0
      refine ⟨rfl, rfl, rfl, fun _ => ⟨rfl, rfl⟩⟩
    · constructor
      · simp [blurFramePasses, h0, List.countP_append, blurDowns_countP_down,
          blurUps_countP_down, blurAngles_length]
      constructor
      · simp [blurFramePasses, h0, List.countP_append, blurDowns_countP_up,
          blurUps_countP_up, blurAngles_length]
      constructor
      · simp [blurFramePasses, h0, List.filter_append, (blurDowns_filter _ L).1,
          (blurDowns_filter _ L).2, (blurUps_filter _ (L - 1)).1,
          (blurUps_filter _ (L - 1)).2]
      · intro h; exact absurd h h0

/-- Witness for `blur_chain_pass_counts` at `L = 2`, diagonal off. -/
theorem blur_chain_pass_counts_witness :
    2 ≤ RESDIVS.length ∧ (kawaseFramePasses 2).countP BlurPass.isDown = 2 :=
  ⟨by decide, (blur_chain_pass_counts 2 (by decide) false).1.1⟩

/-! ## Parameter clamping -/

theorem kawaseDowns_fbIndex_le (n : ℕ) :
    ∀ p ∈ kawaseDowns n, p.fbIndex ≤ n := by
  induction n with
  | zero => intro p hp; simp [kawaseDowns] at hp
  | succ n ih =>
    intro p hp
    simp only [kawaseDowns, List.mem_append, List.mem_singleton] at hp
    rcases hp with hp | hp
    · exact Nat.le_succ_of_le (ih p hp)
    · subst hp; exact Nat.le_refl _

theorem kawaseUps_fbIndex_lt (n : ℕ) :
    ∀ p ∈ kawaseUps n, p.fbIndex < n := by
  induction n with
  | zero => intro p hp; simp [kawaseUps] at hp
  | succ n ih =>
    intro p hp
    simp only [kawaseUps, List.mem_cons] at hp
    rcases hp with hp | hp
    · subst hp; exact Nat.lt_succ_self _
    · exact Nat.lt_succ_of_lt (ih p hp)

theorem blurDowns_fbIndex_lt (angles : List ℝ) (n : ℕ) :
    ∀ p ∈ blurDowns angles n, p.fbIndex < n := by
  induction n with
  | zero => intro p hp; simp [blurDowns] at hp
  | succ n ih =>
    intro p hp
    simp only [blurDowns, List.mem_append, List.mem_map] at hp
    rcases hp with hp | ⟨a, _, hp⟩
    · exact Nat.lt_succ_of_lt (ih p hp)
    · subst hp; exact Nat.lt_succ_self _

theorem blurUps_fbIndex_lt (angles : List ℝ) (n : ℕ) :
    ∀ p ∈ blurUps angles n, p.fbIndex < n := by
  induction n with
  | zero => intro p hp; simp [blurUps] at hp
  | succ n ih =>
    intro p hp
    simp only [blurUps, List.mem_append, List.mem_map] at hp
    rcases hp with ⟨a, _, hp⟩ | hp
    · subst hp; exact Nat.lt_succ_self _
    · exact Nat.lt_succ_of_lt (ih p hp)

theorem kawase_passes_fbIndex_lt {L : ℕ} (hL : L ≤ 5) :
    ∀ p ∈ kawaseFramePasses L, p.fbIndex < RESDIVS.length := by
  intro p hp
  have hlen : RESDIVS.length = 6 := by decide
  rw [hlen]
  by_cases h0 : L = 0
  · subst h0; simp [kawaseFramePasses] at hp
  · simp only [kawaseFramePasses, h0, if_false, List.mem_append] at hp
    rcases hp with hp | hp
    · exact Nat.lt_of_le_of_lt (kawaseDowns_fbIndex_le L p hp) (by omega)
    · exact Nat.lt_of_lt_of_le (kawaseUps_fbIndex_lt L p hp) (by omega)

theorem blurring_passes_fbIndex_lt {L : ℕ} (hL : L ≤ 6) (d : Bool) :
    ∀ p ∈ blurFramePasses d L, p.fbIndex < RESDIVS.length := by
  intro p hp
  have hlen : RESDIVS.length = 6 := by decide
  rw [hlen]
  by_cases h0 : L = 0
  · subst h0; simp [blurFramePasses] at hp
  · simp only [blurFramePasses, h0, if_false, List.mem_append] at hp
    rcases hp with hp | hp
    · exact Nat.lt_of_lt_of_le (blurDowns_fbIndex_lt _ L p hp) (by omega)
    · exact Nat.lt_of_lt_of_le (blurUps_fbIndex_lt _ (L - 1) p hp) (by omega)

/-- Claim C4: after every key-driven mutation of the blur parameters (either
scene), `radius ≥ 0` and the layer count stays in `[0, chainLength]`
(`chainLength = RESDIVS.length = 6`; the Kawase scene clamps layers to 5 since
its downsample loop indexes `composite_fbs[1..=layers]`), so every chain index
a frame's pass sequence uses is in bounds; the initial parameters also satisfy
the invariant. -/
theorem blur_params_clamped (k : KeyInput) (pK : KawaseParams) (pB : BlurringParams)
    (hK : 0 ≤ pK.radius ∧ pK.layers ≤ 5)
    (hB : 0 ≤ pB.radius ∧ pB.layers ≤ 6 ∧ 0 ≤ pB.kernel ∧ pB.kernel ≤ 64) :
    (0 ≤ (kawaseOnKey k pK).radius ∧ (kawaseOnKey k pK).layers ≤ 5 ∧
      (kawaseOnKey k pK).layers ≤ RESDIVS.length ∧
      ∀ p ∈ kawaseFramePasses (kawaseOnKey k pK).layers, p.fbIndex < RESDIVS.length) ∧
    (0 ≤ (blurringOnKey k pB).radius ∧ (blurringOnKey k pB).layers ≤ RESDIVS.length ∧
      0 ≤ (blurringOnKey k pB).kernel ∧ (blurringOnKey k pB).kernel ≤ 64 ∧
      ∀ d, ∀ p ∈ blurFramePasses d (blurringOnKey k pB).layers,
        p.fbIndex < RESDIVS.length) ∧
    (0 ≤ kawaseInitParams.radius ∧ kawaseInitParams.layers ≤ 5 ∧
      0 ≤ blurringInitParams.radius ∧ blurringInitParams.layers ≤ 6 ∧
      0 ≤ blurringInitParams.kernel ∧ blurringInitParams.kernel ≤ 64) := by
  obtain ⟨hKr, hKl⟩ := hK
  obtain ⟨hBr, hBl, hBk0, hBk1⟩ := hB
  have hlen : RESDIVS.length = 6 := by decide
  refine ⟨⟨?_, ?_, ?_, ?_⟩, ⟨?_, ?_, ?_, ?_, ?_⟩, by decide⟩
  · cases k <;> simp only [kawaseOnKey] <;> try exact hKr
    · exact le_min (by linarith) (by norm_num [RESDIVS])
    · exact le_trans (by norm_num) (le_max_right _ _)
  · cases k <;> simp only [kawaseOnKey] <;> try exact hKl
    · exact min_le_right _ _
    · omega
  · rw [hlen]
    cases k <;> simp only [kawaseOnKey] <;> omega
  · have h5 : (kawaseOnKey k pK).layers ≤ 5 := by
      cases k <;> simp only [kawaseOnKey] <;> try exact hKl
      · exact min_le_right _ _
      · omega
    exact kawase_passes_fbIndex_lt h5
  · cases k <;> simp only [blurringOnKey] <;> try exact hBr
    · exact le_min (by linarith) (by norm_num [RESDIVS])
    · exact le_max_right _ _
  · rw [hlen]
    cases k <;> simp only [blurringOnKey] <;> omega
  · cases k <;> simp only [blurringOnKey] <;> try exact hBk0
    · exact le_min (by linarith) (by norm_num)
    · exact le_max_right _ _
  · cases k <;> simp only [blurringOnKey] <;> try exact hBk1
    · exact min_le_right _ _
    · have := le_max_left (pB.kernel - 1) 0; omega
  · intro d
    have h6 : (blurringOnKey k pB).layers ≤ 6 := by
      cases k <;> simp only [blurringOnKey] <;> try exact hBl
      · have h := min_le_right (pB.layers + 1) RESDIVS.length
        rw [hlen] at h; omega
      · omega
    exact blurring_passes_fbIndex_lt h6 d

/-- Witness for `blur_params_clamped`: right-arrow from the initial parameters. -/
theorem blur_params_clamped_witness :
    ((0 : ℚ) ≤ kawaseInitParams.radius ∧ kawaseInitParams.layers ≤ 5) ∧
      ((0 : ℚ) ≤ blurringInitParams.radius ∧ blurringInitParams.layers ≤ 6 ∧
        (0 : ℤ) ≤ blurringInitParams.kernel ∧ blurringInitParams.kernel ≤ 64) ∧
      0 ≤ (kawaseOnKey KeyInput.arrowRight kawaseInitParams).radius :=
  ⟨⟨by decide, by decide⟩, ⟨by decide, by decide, by decide, by decide⟩,
   (blur_params_clamped KeyInput.arrowRight kawaseInitParams blurringInitParams
      ⟨by decide, by decide⟩ ⟨by decide, by decide, by decide, by decide⟩).1.1⟩

/-! ## Partial vertex upload -/

/-- Claim C6: for a rectangular grid sub-range `[xBeg, xEnd] × [yBeg, yEnd]`,
the partial upload engine issues exactly one upload call per row
`y ∈ [yBeg, yEnd]`; each call's byte offset is the size of all vertex data
preceding entity `y * areaWidth + xBeg` and its byte length covers exactly
entities `y * areaWidth + xBeg .. y * areaWidth + xEnd` (4 vertices, 60 bytes
each, per entity); no call spans the whole 100000-entity buffer. -/
theorem update_vertices_row_calls (areaWidth xBeg xEnd yBeg yEnd : ℕ)
    (hx : xBeg ≤ xEnd) (hxe : xEnd < areaWidth) (hy : yBeg ≤ yEnd)
    (haw : areaWidth ≤ 316) :
    updateVerticesCalls areaWidth xBeg xEnd yBeg yEnd =
      (List.range (yEnd + 1 - yBeg)).map (fun k =>
        (((yBeg + k) * areaWidth + xBeg) * quadVerticesBytes,
         (xEnd + 1 - xBeg) * quadVerticesBytes)) ∧
    (updateVerticesCalls areaWidth xBeg xEnd yBeg yEnd).length = yEnd - yBeg + 1 ∧
    ∀ c ∈ updateVerticesCalls areaWidth xBeg xEnd yBeg yEnd,
      c.2 < nQuads * quadVerticesBytes := by
  refine ⟨?_, ?_, ?_⟩
  · rw [updateVerticesCalls, List.range'_eq_map_range, List.map_map]
    apply List.map_congr_left
    intro a _
    simp only [Function.comp_apply]
    have h1 : (yBeg + a) * areaWidth + xEnd + 1 - ((yBeg + a) * areaWidth + xBeg)
        = xEnd + 1 - xBeg := by omega
    rw [h1]
  · rw [updateVerticesCalls, List.length_map, List.length_range']
    omega
  · intro c hc
    simp only [updateVerticesCalls, List.mem_map] at hc
    obtain ⟨y, _, rfl⟩ := hc
    simp only [nQuads, quadVerticesBytes, vertexBytes]
    have h1 : (y * areaWidth + xEnd) + 1 - (y * areaWidth + xBeg) = xEnd + 1 - xBeg := by
      omega
    rw [h1]
    have h2 : xEnd + 1 - xBeg ≤ 316 := by omega
    calc (xEnd + 1 - xBeg) * (4 * (15 * 4)) ≤ 316 * (4 * (15 * 4)) :=
          Nat.mul_le_mul_right _ h2
      _ < 100000 * (4 * (15 * 4)) := by norm_num

/-- Witness for `update_vertices_row_calls` at
`areaWidth = 316, xBeg = 2, xEnd = 4, yBeg = 1, yEnd = 3`. -/
theorem update_vertices_row_calls_witness :
    (2 ≤ 4 ∧ 4 < 316 ∧ 1 ≤ 3 ∧ 316 ≤ 316) ∧
      (updateVerticesCalls 316 2 4 1 3).length = 3 - 1 + 1 :=
  ⟨⟨by decide, by decide, by decide, by decide⟩,
   (update_vertices_row_calls 316 2 4 1 3 (by decide) (by decide) (by decide)
      (by decide)).2.1⟩

/-! ## Scene controller -/

/-- Claim C7: a scroll event with wheel delta `d` multiplies the target scale
`hard_scale` (not the live camera scale) by `2 ^ (scroll_speed * d)`; each
`update()` advances `camera.scale` by the fraction `dt ^ 0.6` of the remaining
gap `hard_scale - camera.scale`, where `dt` is the elapsed frame delta; and
while drag is active, `update()` translates `camera.position` by
`(pointerNow - pointerAnchor) / camera.scale` (the freshly advanced scale). -/
theorem scene_controller_scroll_and_update (s : SceneController) (y now : ℝ) :
    ((s.interact (CtlEvent.mouseWheelLine y)).hardScale
        = ((2 : ℝ) ^ (s.scrollSpeed * y)) • s.hardScale ∧
      (s.interact (CtlEvent.mouseWheelLine y)).camera.scale = s.camera.scale) ∧
    (s.update now).camera.scale
      = s.camera.scale
        + ((s.currentElapsed - s.prevElapsed) ^ (0.6 : ℝ)) • (s.hardScale - s.camera.scale) ∧
    (s.mousePressed = true →
      (s.update now).camera.position
        = s.camera.position + (s.mousePos - s.mousePosHeld) / (s.update now).camera.scale) := by
  refine ⟨⟨rfl, rfl⟩, rfl, ?_⟩
  intro h
  simp [SceneController.update, h]

/-- Witness for `scene_controller_scroll_and_update` on `sampleController`. -/
theorem scene_controller_scroll_and_update_witness :
    sampleController.mousePressed = true ∧
      (sampleController.update 2).camera.position
        = sampleController.camera.position
          + (sampleController.mousePos - sampleController.mousePosHeld)
            / (sampleController.update 2).camera.scale :=
  ⟨rfl, (scene_controller_scroll_and_update sampleController 1 2).2.2 rfl⟩

/-- Claim C10: while the pointer button is held, the drag anchor
`mouse_pos_held` is never advanced, and (with the damping target equal to the
live scale, so the scale is stationary) `n` consecutive `update()` calls with
the pointer stationary translate the camera by
`n • ((pointerNow - anchor) / scale)` — the pan accumulates every frame. -/
theorem drag_pan_accumulates_per_frame (s : SceneController) (ts : List ℝ)
    (hp : s.mousePressed = true) (hh : s.hardScale = s.camera.scale) :
    (s.updateSeq ts).mousePosHeld = s.mousePosHeld ∧
      (s.updateSeq ts).camera.scale = s.camera.scale ∧
      (s.updateSeq ts).camera.position
        = s.camera.position
          + (ts.length : ℝ) • ((s.mousePos - s.mousePosHeld) / s.camera.scale) := by
  induction ts generalizing s with
  | nil => simp [SceneController.updateSeq]
  | cons t ts ih =>
    have hscale : (s.update t).camera.scale = s.camera.scale := by
      simp [SceneController.update, hh]
    have hpos : (s.update t).camera.position
        = s.camera.position + (s.mousePos - s.mousePosHeld) / s.camera.scale := by
      simp [SceneController.update, hp, hh]
    have hmp : (s.update t).mousePos = s.mousePos := rfl
    have hmh : (s.update t).mousePosHeld = s.mousePosHeld := rfl
    have hpr : (s.update t).mousePressed = true := hp
    have hhs : (s.update t).hardScale = (s.update t).camera.scale := by
      rw [hscale]; exact hh
    obtain ⟨ih1, ih2, ih3⟩ := ih (s.update t) hpr hhs
    refine ⟨by rw [SceneController.updateSeq, ih1, hmh], ?_, ?_⟩
    · rw [SceneController.updateSeq, ih2, hscale]
    · rw [SceneController.updateSeq, ih3, hmp, hmh, hscale, hpos, List.length_cons]
      have hcast : ((ts.length + 1 : ℕ) : ℝ) = (ts.length : ℝ) + 1 := by push_cast; ring
      rw [hcast, add_smul, one_smul, add_assoc]
      rw [add_comm ((s.mousePos - s.mousePosHeld) / s.camera.scale)
        ((ts.length : ℝ) • ((s.mousePos - s.mousePosHeld) / s.camera.scale))]

/-- Witness for `drag_pan_accumulates_per_frame`: one `update()` on
`sampleController`. -/
theorem drag_pan_accumulates_per_frame_witness :
    sampleController.mousePressed = true ∧
      sampleController.hardScale = sampleController.camera.scale ∧
      (sampleController.updateSeq [5]).camera.position
        = sampleController.camera.position
          + (([5] : List ℝ).length : ℝ)
            • ((sampleController.mousePos - sampleController.mousePosHeld)
                / sampleController.camera.scale) :=
  ⟨rfl, rfl, (drag_pan_accumulates_per_frame sampleController [5] rfl rfl).2.2⟩

/-! ## Camera transform chain -/

/-- Claim C2: for every camera state and viewport, `matrix(viewport)` acts on
world points exactly as the composition, in order, of: the camera translation
by `(position, -32767.5)`, the z-rotation by the camera's rotation, the
re-centering translation by `realSize / 2`, and the orthographic projection
over `[0, realSize.x] × [realSize.y, 0]` with depth range `[0, 65535]`. -/
theorem camera_matrix_factorization (c : Camera) (vp : ℝ × ℝ) (x y z : ℝ)
    (hsx : c.scale.1 ≠ 0) (hsy : c.scale.2 ≠ 0)
    (hvx : vp.1 ≠ 0) (hvy : vp.2 ≠ 0) :
    (c.matrix vp).mulVec ⟨x, y, z, 1⟩ =
      pointVec4 (specOrthoProject (c.realSize vp)
        (specCenterTranslate (c.realSize vp)
          (specRotateZ c.rotation (specCameraTranslate c (x, y, z))))) := by
  simp only [Camera.matrix, Mat4.orthographicLH, Mat4.fromTranslation,
    Mat4.fromRotationZ, Mat4.mul, Mat4.mulVec, pointVec4, specOrthoProject,
    specCenterTranslate, specRotateZ, specCameraTranslate, Camera.realSize,
    Vec4.mk.injEq]
  refine ⟨?_, ?_, ?_, ?_⟩ <;> field_simp <;> ring

/-- Witness for `camera_matrix_factorization` at position `(3, 4)`,
rotation `0`, scale `(2, 2)`, viewport `(640, 480)`, point `(1, 2, 3)`. -/
theorem camera_matrix_factorization_witness :
    ((Camera.mk (3, 4) 0 (2, 2)).scale.1 ≠ 0 ∧
        (Camera.mk (3, 4) 0 (2, 2)).scale.2 ≠ 0 ∧
        ((640 : ℝ), (480 : ℝ)).1 ≠ 0 ∧ ((640 : ℝ), (480 : ℝ)).2 ≠ 0) ∧
      ((Camera.mk (3, 4) 0 (2, 2)).matrix (640, 480)).mulVec ⟨1, 2, 3, 1⟩ =
        pointVec4 (specOrthoProject ((Camera.mk (3, 4) 0 (2, 2)).realSize (640, 480))
          (specCenterTranslate ((Camera.mk (3, 4) 0 (2, 2)).realSize (640, 480))
            (specRotateZ (Camera.mk (3, 4) 0 (2, 2)).rotation
              (specCameraTranslate (Camera.mk (3, 4) 0 (2, 2)) (1, 2, 3))))) :=
  ⟨⟨by norm_num, by norm_num, by norm_num, by norm_num⟩,
   camera_matrix_factorization (Camera.mk (3, 4) 0 (2, 2)) (640, 480) 1 2 3
     (by norm_num) (by norm_num) (by norm_num) (by norm_num)⟩

/-- Counterexample for claim C1: with rotation `π` (position `0`, scale `1`,
viewport `(2, 2)`), mapping the world point `(0, 0)` through the camera
transform chain and back through `pointer_to_pos` yields `(-2, -2)`, not
`(0, 0)`: `pointer_to_pos` subtracts the center offset after rotating back,
while `matrix()` adds it after rotating forward. -/
theorem pointer_roundtrip_fails_with_rotation :
    ¬ ((Camera.mk (0, 0) Real.pi (1, 1)).pointerToPos
        (worldToScreenPre (Camera.mk (0, 0) Real.pi (1, 1)) (2, 2) (0, 0)) (2, 2)
      = (0, 0)) := by
  simp only [Camera.pointerToPos, worldToScreenPre, Camera.centerOffset,
    Camera.realSize, Mat4.fromTranslation, Mat4.fromRotationZ, Mat4.fromScale,
    Mat4.mul, Mat4.mulVec, Real.cos_neg, Real.sin_neg, Real.cos_pi, Real.sin_pi,
    Prod.mk.injEq]
  norm_num

set_option maxHeartbeats 2000000 in
/-- Claim C1 (amended): for zero rotation (any position, any componentwise
non-zero scale, any non-degenerate viewport), `pointer_to_pos` is the exact
inverse of the world-to-pixel transform — `matrix()`'s chain followed by the
projection's NDC-to-pixel viewport mapping. With non-zero rotation the round
trip fails, because `pointer_to_pos` applies the inverse rotation before
subtracting the center offset whereas `matrix()` adds the center offset after
rotating. -/
theorem pointer_to_pos_inverts_screen_map (c : Camera) (vp p : ℝ × ℝ)
    (hrot : c.rotation = 0) (hsx : c.scale.1 ≠ 0) (hsy : c.scale.2 ≠ 0)
    (hvx : vp.1 ≠ 0) (hvy : vp.2 ≠ 0) :
    c.pointerToPos (worldToScreenPx c vp p) vp = p := by
  simp only [Camera.pointerToPos, worldToScreenPx, Camera.matrix,
    Camera.centerOffset, Camera.realSize, Mat4.orthographicLH,
    Mat4.fromTranslation, Mat4.fromRotationZ, Mat4.fromScale, Mat4.mul,
    Mat4.mulVec, hrot, Real.cos_zero, Real.sin_zero, neg_zero]
  refine Prod.ext ?_ ?_ <;> field_simp <;> ring

/-- Witness for `pointer_to_pos_inverts_screen_map` at position `(3, 4)`,
scale `(2, 2)`, viewport `(640, 480)`, world point `(5, 6)`. -/
theorem pointer_to_pos_inverts_screen_map_witness :
    ((Camera.mk (3, 4) 0 (2, 2)).rotation = 0 ∧
        (Camera.mk (3, 4) 0 (2, 2)).scale.1 ≠ 0 ∧
        (Camera.mk (3, 4) 0 (2, 2)).scale.2 ≠ 0 ∧
        ((640 : ℝ), (480 : ℝ)).1 ≠ 0 ∧ ((640 : ℝ), (480 : ℝ)).2 ≠ 0) ∧
      (Camera.mk (3, 4) 0 (2, 2)).pointerToPos
          (worldToScreenPx (Camera.mk (3, 4) 0 (2, 2)) (640, 480) (5, 6))
          (640, 480)
        = (5, 6) :=
  ⟨⟨rfl, by norm_num, by norm_num, by norm_num, by norm_num⟩,
   pointer_to_pos_inverts_screen_map (Camera.mk (3, 4) 0 (2, 2)) (640, 480) (5, 6)
     rfl (by norm_num) (by norm_num) (by norm_num) (by norm_num)⟩

/-! ## Grid geometry helpers -/

theorem roundAwayR_le_of_le {t : ℝ} {n : ℤ} (h : t ≤ (n : ℝ)) : roundAwayR t ≤ n := by
  unfold roundAwayR
  split
  · have h1 : (⌊t + 1 / 2⌋ : ℝ) ≤ (n : ℝ) + 1 / 2 := le_trans (Int.floor_le _) (by linarith)
    have h2 : ⌊t + 1 / 2⌋ < n + 1 := by
      rw [← @Int.cast_lt ℝ]
      push_cast
      linarith
    omega
  · have h1 : (-n : ℝ) ≤ -t + 1 / 2 := by linarith
    have h2 : -n ≤ ⌊-t + 1 / 2⌋ := Int.le_floor.mpr (by push_cast; linarith)
    omega

theorem le_roundAwayR_of_le {t : ℝ} {n : ℤ} (h : (n : ℝ) ≤ t) : n ≤ roundAwayR t := by
  unfold roundAwayR
  split
  · exact Int.le_floor.mpr (by push_cast; linarith)
  · have h2 : ⌊-t + 1 / 2⌋ < -n + 1 := by
      rw [Int.floor_lt]
      push_cast
      linarith
    omega

theorem abs_sub_le_vecDistance_fst (a b : ℝ × ℝ) : |a.1 - b.1| ≤ vecDistance a b := by
  unfold vecDistance
  calc |a.1 - b.1| = Real.sqrt ((a.1 - b.1) ^ 2) := (Real.sqrt_sq_eq_abs _).symm
    _ ≤ Real.sqrt ((a.1 - b.1) ^ 2 + (a.2 - b.2) ^ 2) :=
        Real.sqrt_le_sqrt (le_add_of_nonneg_right (sq_nonneg _))

theorem abs_sub_le_vecDistance_snd (a b : ℝ × ℝ) : |a.2 - b.2| ≤ vecDistance a b := by
  unfold vecDistance
  calc |a.2 - b.2| = Real.sqrt ((a.2 - b.2) ^ 2) := (Real.sqrt_sq_eq_abs _).symm
    _ ≤ Real.sqrt ((a.1 - b.1) ^ 2 + (a.2 - b.2) ^ 2) :=
        Real.sqrt_le_sqrt (le_add_of_nonneg_left (sq_nonneg _))

theorem closestGridIdxR_le_of_le {v : ℝ} {aw g : ℕ}
    (h : v / 16 + (aw : ℝ) * (1 / 2) ≤ (g : ℝ)) :
    (min (max (roundAwayR (v / 16 + (aw : ℝ) * (1 / 2))) 0) ((aw : ℤ) - 1)).toNat ≤ g := by
  have h1 : roundAwayR (v / 16 + (aw : ℝ) * (1 / 2)) ≤ (g : ℤ) :=
    roundAwayR_le_of_le (by push_cast; linarith)
  have h2 : min (max (roundAwayR (v / 16 + (aw : ℝ) * (1 / 2))) 0) ((aw : ℤ) - 1)
      ≤ max (roundAwayR (v / 16 + (aw : ℝ) * (1 / 2))) 0 := min_le_left _ _
  have h3 : max (roundAwayR (v / 16 + (aw : ℝ) * (1 / 2))) 0 ≤ (g : ℤ) :=
    max_le h1 (by positivity)
  omega

theorem le_closestGridIdxR_of_le {v : ℝ} {aw g : ℕ} (hg : g < aw)
    (h : (g : ℝ) ≤ v / 16 + (aw : ℝ) * (1 / 2)) :
    g ≤ (min (max (roundAwayR (v / 16 + (aw : ℝ) * (1 / 2))) 0) ((aw : ℤ) - 1)).toNat := by
  have h1 : (g : ℤ) ≤ roundAwayR (v / 16 + (aw : ℝ) * (1 / 2)) :=
    le_roundAwayR_of_le (by push_cast; linarith)
  have h2 : (g : ℤ) ≤ max (roundAwayR (v / 16 + (aw : ℝ) * (1 / 2))) 0 :=
    le_trans h1 (le_max_left _ _)
  have h3 : (g : ℤ) ≤ (aw : ℤ) - 1 := by omega
  have h4 : (g : ℤ) ≤ min (max (roundAwayR (v / 16 + (aw : ℝ) * (1 / 2))) 0) ((aw : ℤ) - 1) :=
    le_min h2 h3
  omega

theorem closestGridIdxR_lt (pos : ℝ × ℝ) (aw : ℕ) (haw : 1 ≤ aw) :
    (closestGridIdxR pos aw).1 < aw ∧ (closestGridIdxR pos aw).2 < aw := by
  unfold closestGridIdxR
  constructor
  · have h := min_le_right
      (max (roundAwayR (pos.1 / 16 + (aw : ℝ) * (1 / 2))) 0) ((aw : ℤ) - 1)
    simp only
    omega
  · have h := min_le_right
      (max (roundAwayR (pos.2 / 16 + (aw : ℝ) * (1 / 2))) 0) ((aw : ℤ) - 1)
    simp only
    omega

theorem inDisc_in_rect {P : ℝ × ℝ} {R : ℝ} {aw gx gy : ℕ}
    (hgx : gx < aw) (hgy : gy < aw)
    (hd : vecDistance (posFromGridIdx gx gy aw) P < R) :
    (closestGridIdxR (P - (R, R)) aw).1 ≤ gx ∧
      gx ≤ (closestGridIdxR (P + (R, R)) aw).1 ∧
      (closestGridIdxR (P - (R, R)) aw).2 ≤ gy ∧
      gy ≤ (closestGridIdxR (P + (R, R)) aw).2 := by
  have hx := abs_sub_le_vecDistance_fst (posFromGridIdx gx gy aw) P
  have hy := abs_sub_le_vecDistance_snd (posFromGridIdx gx gy aw) P
  simp only [posFromGridIdx] at hx hy
  obtain ⟨hx1, hx2⟩ := abs_lt.mp (lt_of_le_of_lt hx hd)
  obtain ⟨hy1, hy2⟩ := abs_lt.mp (lt_of_le_of_lt hy hd)
  refine ⟨?_, ?_, ?_, ?_⟩
  · simp only [closestGridIdxR, Prod.fst_sub]
    exact closestGridIdxR_le_of_le (by linarith)
  · simp only [closestGridIdxR, Prod.fst_add]
    exact le_closestGridIdxR_of_le hgx (by linarith)
  · simp only [closestGridIdxR, Prod.snd_sub]
    exact closestGridIdxR_le_of_le (by linarith)
  · simp only [closestGridIdxR, Prod.snd_add]
    exact le_closestGridIdxR_of_le hgy (by linarith)

theorem index_coords_eq {aw x1 y1 x2 y2 : ℕ} (h1 : x1 < aw) (h2 : x2 < aw)
    (he : y1 * aw + x1 = y2 * aw + x2) : x1 = x2 ∧ y1 = y2 := by
  have h0 : 0 < aw := by omega
  have e1 : (y1 * aw + x1) % aw = x1 := by
    rw [Nat.add_comm, Nat.add_mul_mod_self_right, Nat.mod_eq_of_lt h1]
  have e2 : (y2 * aw + x2) % aw = x2 := by
    rw [Nat.add_comm, Nat.add_mul_mod_self_right, Nat.mod_eq_of_lt h2]
  have d1 : (y1 * aw + x1) / aw = y1 := by
    rw [Nat.add_comm, Nat.add_mul_div_right x1 y1 h0, Nat.div_eq_of_lt h1, Nat.zero_add]
  have d2 : (y2 * aw + x2) / aw = y2 := by
    rw [Nat.add_comm, Nat.add_mul_div_right x2 y2 h0, Nat.div_eq_of_lt h2, Nat.zero_add]
  rw [he] at e1 d1
  exact ⟨e1.symm.trans e2, d1.symm.trans d2⟩

theorem mem_rectPairs {xB xE yB yE gx gy : ℕ} :
    (gx, gy) ∈ rectPairs xB xE yB yE ↔
      xB ≤ gx ∧ gx ≤ xE ∧ yB ≤ gy ∧ gy ≤ yE := by
  simp only [rectPairs, List.mem_flatMap, List.mem_map, List.mem_range',
    Prod.mk.injEq]
  constructor
  · rintro ⟨y, ⟨i, hi, rfl⟩, x, ⟨j, hj, rfl⟩, hxx, hyy⟩
    omega
  · rintro ⟨hA, hB, hC, hD⟩
    exact ⟨gy, ⟨gy - yB, by omega, by omega⟩, gx, ⟨gx - xB, by omega, by omega⟩,
      rfl, rfl⟩

theorem nodup_flatMap_of_rows {α : Type} (ys : List ℕ) (row : ℕ → List α)
    (hrow : ∀ y, (row y).Nodup)
    (hdisj : ∀ y1 y2 a, y1 ≠ y2 → a ∈ row y1 → a ∉ row y2)
    (hys : ys.Nodup) : (ys.flatMap row).Nodup := by
  induction ys with
  | nil => simp
  | cons y ys ih =>
    rw [List.flatMap_cons]
    obtain ⟨hy, hys'⟩ := List.nodup_cons.mp hys
    refine List.Nodup.append (hrow y) (ih hys') ?_
    intro a ha hamem
    obtain ⟨y2, hy2, ha2⟩ := List.mem_flatMap.mp hamem
    exact hdisj y y2 a (fun he => hy (he ▸ hy2)) ha ha2

theorem rectPairs_nodup (xB xE yB yE : ℕ) : (rectPairs xB xE yB yE).Nodup := by
  unfold rectPairs
  apply nodup_flatMap_of_rows
  · intro y
    refine List.Nodup.map ?_ (List.nodup_range' _ _)
    intro a b hab
    exact (Prod.mk.injEq _ _ _ _ ▸ hab : a = b ∧ y = y).1
  · intro y1 y2 a hne ha1 ha2
    obtain ⟨x1, _, rfl⟩ := List.mem_map.mp ha1
    obtain ⟨x2, _, he⟩ := List.mem_map.mp ha2
    exact hne ((Prod.mk.injEq _ _ _ _ ▸ he : x2 = x1 ∧ y2 = y1).2).symm
  · exact List.nodup_range' _ _

theorem foldl_surroundStep_untouched (dt R : ℝ) (P : ℝ × ℝ) (aw total : ℕ)
    (L : List (ℕ × ℕ)) (st : GridState) (i : ℕ)
    (h : ∀ p ∈ L, p.2 * aw + p.1 ≠ i) :
    (L.foldl (surroundStep dt R P aw total) st).vertices i = st.vertices i ∧
      (L.foldl (surroundStep dt R P aw total) st).quads i = st.quads i := by
  induction L generalizing st with
  | nil => exact ⟨rfl, rfl⟩
  | cons p L ih =>
    have hp : p.2 * aw + p.1 ≠ i := h p (List.mem_cons_self p L)
    have hrest : ∀ q ∈ L, q.2 * aw + q.1 ≠ i :=
      fun q hq => h q (List.mem_cons_of_mem p hq)
    rw [List.foldl_cons]
    obtain ⟨ih1, ih2⟩ := ih (surroundStep dt R P aw total st p) hrest
    have hstepv : (surroundStep dt R P aw total st p).vertices i = st.vertices i := by
      simp only [surroundStep]
      split
      · exact Function.update_noteq (Ne.symm hp) _ _
      · rfl
    have hstepq : (surroundStep dt R P aw total st p).quads i = st.quads i := by
      simp only [surroundStep]
      split
      · exact Function.update_noteq (Ne.symm hp) _ _
      · rfl
    exact ⟨ih1.trans hstepv, ih2.trans hstepq⟩

/-- Claim C5: after one reactive surround update for a pointer at world
position `P` with surround radius `R`: every grid entity within Euclidean
distance `R` of `P` (strictly, per the claim's own formula
`intensity = max(0, R - distance) / R`) is rewritten with intensity
`> 0` — its vertex block becomes the rebuilt block of the rotated quad with
vertex-intensity argument `2 * intensity + 0.5`; and every entity strictly
outside the bounding grid rectangle
`closestGridCoord(P - R) .. closestGridCoord(P + R)` has its vertex data
unchanged from the prior frame. -/
theorem surround_update_locality (dt R : ℝ) (P : ℝ × ℝ) (aw total gx gy : ℕ)
    (st : GridState)
    (hR : 0 < R) (hgx : gx < aw) (hgy : gy < aw)
    (hi : gy * aw + gx < total)
    (hpos : (st.quads (gy * aw + gx)).position = posFromGridIdx gx gy aw) :
    (vecDistance (posFromGridIdx gx gy aw) P < R →
      0 < surroundIntensity R (posFromGridIdx gx gy aw) P ∧
        (surroundUpdate dt R P aw total st).vertices (gy * aw + gx) =
          ({ st.quads (gy * aw + gx) with
              rotation := (st.quads (gy * aw + gx)).rotation
                + dt * Real.pi * 2 * surroundIntensity R (posFromGridIdx gx gy aw) P }
            : QuadData).vertices
            (2 * surroundIntensity R (posFromGridIdx gx gy aw) P + 1 / 2)) ∧
    ((gx < (closestGridIdxR (P - (R, R)) aw).1 ∨
        (closestGridIdxR (P + (R, R)) aw).1 < gx ∨
        gy < (closestGridIdxR (P - (R, R)) aw).2 ∨
        (closestGridIdxR (P + (R, R)) aw).2 < gy) →
      (surroundUpdate dt R P aw total st).vertices (gy * aw + gx) =
        st.vertices (gy * aw + gx)) := by
  have haw : 1 ≤ aw := by omega
  have heLt := closestGridIdxR_lt (P + (R, R)) aw haw
  have huniq : ∀ p, p ∈ rectPairs (closestGridIdxR (P - (R, R)) aw).1
      (closestGridIdxR (P + (R, R)) aw).1 (closestGridIdxR (P - (R, R)) aw).2
      (closestGridIdxR (P + (R, R)) aw).2 →
      p.2 * aw + p.1 = gy * aw + gx → p = (gx, gy) := by
    rintro ⟨px, py⟩ hp hpe
    obtain ⟨hb1, he1, hb2, he2⟩ := mem_rectPairs.mp hp
    have hpx : px < aw := lt_of_le_of_lt he1 heLt.1
    obtain ⟨hx', hy'⟩ := index_coords_eq hpx hgx hpe
    exact Prod.ext hx' hy'
  constructor
  · intro hd
    have hpos2 : 0 < surroundIntensity R (posFromGridIdx gx gy aw) P := by
      unfold surroundIntensity
      exact div_pos (lt_max_iff.mpr (Or.inl (sub_pos.mpr hd))) hR
    refine ⟨hpos2, ?_⟩
    obtain ⟨hb1, he1, hb2, he2⟩ := inDisc_in_rect hgx hgy hd
    have hmem : (gx, gy) ∈ rectPairs (closestGridIdxR (P - (R, R)) aw).1
        (closestGridIdxR (P + (R, R)) aw).1 (closestGridIdxR (P - (R, R)) aw).2
        (closestGridIdxR (P + (R, R)) aw).2 :=
      mem_rectPairs.mpr ⟨hb1, he1, hb2, he2⟩
    obtain ⟨s, t, hst⟩ := List.append_of_mem hmem
    have hnd := rectPairs_nodup (closestGridIdxR (P - (R, R)) aw).1
      (closestGridIdxR (P + (R, R)) aw).1 (closestGridIdxR (P - (R, R)) aw).2
      (closestGridIdxR (P + (R, R)) aw).2
    rw [hst] at hnd
    obtain ⟨hnds, hndt, hdisj⟩ := List.nodup_append.mp hnd
    have hxy_t : (gx, gy) ∉ t := (List.nodup_cons.mp hndt).1
    have hxy_s : (gx, gy) ∉ s := fun hs => hdisj hs (List.mem_cons_self _ _)
    have hs_ne : ∀ p ∈ s, p.2 * aw + p.1 ≠ gy * aw + gx := by
      intro p hp hpe
      have hpr : p ∈ s ++ (gx, gy) :: t := List.mem_append.mpr (Or.inl hp)
      rw [← hst] at hpr
      exact hxy_s ((huniq p hpr hpe) ▸ hp)
    have ht_ne : ∀ p ∈ t, p.2 * aw + p.1 ≠ gy * aw + gx := by
      intro p hp hpe
      have hpr : p ∈ s ++ (gx, gy) :: t :=
        List.mem_append.mpr (Or.inr (List.mem_cons_of_mem _ hp))
      rw [← hst] at hpr
      exact hxy_t ((huniq p hpr hpe) ▸ hp)
    simp only [surroundUpdate]
    rw [hst, List.foldl_append, List.foldl_cons]
    have hq1 : (s.foldl (surroundStep dt R P aw total) st).quads (gy * aw + gx)
        = st.quads (gy * aw + gx) :=
      (foldl_surroundStep_untouched dt R P aw total s st (gy * aw + gx) hs_ne).2
    have hwrite : (surroundStep dt R P aw total
          (s.foldl (surroundStep dt R P aw total) st) (gx, gy)).vertices (gy * aw + gx)
        = ({ st.quads (gy * aw + gx) with
              rotation := (st.quads (gy * aw + gx)).rotation
                + dt * Real.pi * 2 * surroundIntensity R (posFromGridIdx gx gy aw) P }
            : QuadData).vertices
            (2 * surroundIntensity R (posFromGridIdx gx gy aw) P + 1 / 2) := by
      simp only [surroundStep]
      rw [if_pos hi]
      simp only [Function.update_same]
      rw [hq1, hpos]
    have huntouch := (foldl_surroundStep_untouched dt R P aw total t
      (surroundStep dt R P aw total (s.foldl (surroundStep dt R P aw total) st) (gx, gy))
      (gy * aw + gx) ht_ne).1
    rw [huntouch, hwrite]
  · intro hout
    simp only [surroundUpdate]
    apply (foldl_surroundStep_untouched dt R P aw total _ st (gy * aw + gx) ?_).1
    intro p hp hpe
    have hpg := huniq p hp hpe
    obtain ⟨hb1, he1, hb2, he2⟩ := mem_rectPairs.mp (hpg ▸ hp)
    omega

/-- Witness for `surround_update_locality`: a 2×2 grid, the pointer exactly on
entity `(0, 0)`, radius 320. -/
theorem surround_update_locality_witness :
    ((0 : ℝ) < 320 ∧ (0 : ℕ) < 2 ∧ (0 : ℕ) * 2 + 0 < 4 ∧
        (sampleGrid.quads (0 * 2 + 0)).position = posFromGridIdx 0 0 2 ∧
        vecDistance (posFromGridIdx 0 0 2) (posFromGridIdx 0 0 2) < 320) ∧
      0 < surroundIntensity 320 (posFromGridIdx 0 0 2) (posFromGridIdx 0 0 2) :=
  ⟨⟨by norm_num, by decide, by decide, rfl, by norm_num [vecDistance]⟩,
   ((surround_update_locality 1 320 (posFromGridIdx 0 0 2) 2 4 0 0 sampleGrid
      (by norm_num) (by decide) (by decide) (by decide) rfl).1
      (by norm_num [vecDistance])).1⟩
